import Mathlib

-- Verification of the OpenPlayground project-gallery logic (src/js/app.js):
-- filtering, sorting, pagination, UI event handling and startup initialization.

-- ===================================================================
-- Data model
-- ===================================================================

-- A project record from projects.json.  `category` is `Option String` so that
-- an absent field (`none`) and an empty field (`some ""`) are both
-- representable; the JavaScript truthiness test `project.category ? _ : _`
-- treats both as false.
structure Project where
  title : String
  description : String := ""
  category : Option String := none
  tech : List String := []
  link : String := ""
  icon : String := ""
deriving DecidableEq

-- Structural model of JavaScript's `toLowerCase()` (per-character lowering),
-- written over the character list so proofs can evaluate it.
def lowerString (s : String) : String := String.mk (s.data.map Char.toLower)

-- `charsStartsWith hay pat` is true when `pat` is an initial segment of `hay`.
def charsStartsWith : List Char → List Char → Bool
  | _, [] => true
  | [], _ :: _ => false
  | c :: cs, d :: ds => c == d && charsStartsWith cs ds

-- `charsContains pat hay` is true when `pat` occurs contiguously in `hay`.
def charsContains (pat : List Char) : List Char → Bool
  | [] => charsStartsWith [] pat
  | c :: cs => charsStartsWith (c :: cs) pat || charsContains pat cs

-- Model of JavaScript's `s.includes(sub)`: contiguous substring containment.
def strContains (s sub : String) : Bool := charsContains sub.data s.data

-- ===================================================================
-- Category normalization (app.js)
-- ===================================================================

-- From src/js/app.js line 130 (updateCategoryCounts):
-- `project.category ? project.category.toLowerCase() : "unknown"`.
def countCategoryKey (p : Project) : String :=
  match p.category with
  | none => "unknown"
  | some c => if c = "" then "unknown" else lowerString c

-- From src/js/app.js lines 127-132: the per-category tally built by
-- `updateCategoryCounts`, read back at a normalized key.
def categoryCounts (data : List Project) (cat : String) : Nat :=
  (data.filter (fun p => decide (countCategoryKey p = cat))).length

-- From src/js/app.js line 336 (the fallback filter in renderProjects, used
-- only when the visibility engine is absent):
-- `p.category ? p.category.toLowerCase() : ""`.
def fallbackCategoryKey (p : Project) : String :=
  match p.category with
  | none => ""
  | some c => if c = "" then "" else lowerString c

-- From src/js/app.js lines 334-338: the fallback category filter applied when
-- `visibilityEngine` is null.
def fallbackCategoryFilter (cat : String) (l : List Project) : List Project :=
  if cat ≠ "all" then
    l.filter (fun p => decide (fallbackCategoryKey p = lowerString cat))
  else l

-- ===================================================================
-- Visibility engine (imported module, modelled from the spec)
-- ===================================================================

/-- Modelled from the spec: app.js imports `ProjectVisibilityEngine` from
`./core/projectVisibilityEngine.js`, a file that is not part of this source
snapshot.  Per the spec the engine holds the record store plus
`searchQuery : string` (default empty) and `category : string`
(default `"all"`). -/
structure EngineState where
  records : List Project
  searchQuery : String
  category : String
deriving DecidableEq

/-- Modelled from the spec: `construct(records)` stores the full record
sequence and initializes the filter state to its defaults. -/
def mkEngine (records : List Project) : EngineState :=
  { records := records, searchQuery := "", category := "all" }

/-- Modelled from the spec: `setSearchQuery(text)` sets `searchQuery` to
`text`, with no trimming or normalization. -/
def setSearchQuery (e : EngineState) (text : String) : EngineState :=
  { e with searchQuery := text }

/-- Modelled from the spec: `setCategory(category)` stores the token verbatim;
`"all"` is the sentinel meaning no category constraint. -/
def setCategory (e : EngineState) (cat : String) : EngineState :=
  { e with category := cat }

/-- Modelled from the spec: `reset()` restores `searchQuery` to the empty
string and `category` to `"all"`, leaving the record store untouched. -/
def reset (e : EngineState) : EngineState :=
  { e with searchQuery := "", category := "all" }

/-- Modelled from the spec: the per-record normalization used by the engine's
category comparison — absent or empty `category` is treated as `"unknown"`,
otherwise it is lowercased. -/
def categoryKey (p : Project) : String :=
  match p.category with
  | none => "unknown"
  | some c => if c = "" then "unknown" else lowerString c

/-- Modelled from the spec: a record is visible when the category predicate
(`category == "all"` or lowercased categories are equal) and the search
predicate (`searchQuery` empty or lowercased title contains the lowercased
query as a substring) both hold. -/
def visiblePred (q cat : String) (p : Project) : Bool :=
  (decide (cat = "all") || decide (categoryKey p = lowerString cat)) &&
  (decide (q = "") || strContains (lowerString p.title) (lowerString q))

/-- Modelled from the spec: `getVisibleProjects()` filters the full store with
the current predicates, preserving the store's order. -/
def getVisibleProjects (e : EngineState) : List Project :=
  e.records.filter (visiblePred e.searchQuery e.category)

-- Filter-state mutations available on a live engine (the only mutators the
-- spec exposes besides reset).
inductive EngineOp
  | search (text : String)
  | cat (c : String)

def applyOp (e : EngineState) : EngineOp → EngineState
  | .search t => setSearchQuery e t
  | .cat c => setCategory e c

def applyOps (e : EngineState) (ops : List EngineOp) : EngineState :=
  ops.foldl applyOp e

-- ===================================================================
-- Sorter (src/js/app.js lines 341-353)
-- ===================================================================

-- `currentSort` values ("default" | "az" | "za" | "newest"); line 102 and the
-- switch at lines 343-353.
inductive SortMode
  | default
  | az
  | za
  | newest
deriving DecidableEq

-- A JS comparator keeps `a` before `b` when its value is ≤ 0; `leOfOrdering`
-- is that test on an abstract comparison result.
def leOfOrdering : Ordering → Bool
  | Ordering.gt => false
  | _ => true

-- Stable insertion: place `x` before the first element it compares ≤ to.
def orderedInsertB (le : α → α → Bool) (x : α) : List α → List α
  | [] => [x]
  | y :: ys =>
    match le x y with
    | true => x :: y :: ys
    | false => y :: orderedInsertB le x ys

-- Stable sort.  ECMAScript 2019 requires `Array.prototype.sort` to be stable,
-- and every stable sort computes the same result for a consistent comparator,
-- so insertion sort is a faithful model of the engine's sort.
def insertionSortB (le : α → α → Bool) : List α → List α
  | [] => []
  | x :: xs => orderedInsertB le x (insertionSortB le xs)

-- Comparator of the "az" branch: `(a, b) => a.title.localeCompare(b.title)`,
-- abstracted over the environment's collator `lc`.
def leAz (lc : String → String → Ordering) (a b : Project) : Bool :=
  leOfOrdering (lc a.title b.title)

-- Comparator of the "za" branch: `(a, b) => b.title.localeCompare(a.title)`.
def leZa (lc : String → String → Ordering) (a b : Project) : Bool :=
  leOfOrdering (lc b.title a.title)

-- Contents computed by the switch at lines 343-353 for `filteredProjects`:
-- no comparator for "default", stable title sorts for "az"/"za", and a
-- wholesale reversal for "newest".
def sortProjects (lc : String → String → Ordering) (mode : SortMode)
    (l : List Project) : List Project :=
  match mode with
  | SortMode.default => l
  | SortMode.az => insertionSortB (leAz lc) l
  | SortMode.za => insertionSortB (leZa lc) l
  | SortMode.newest => l.reverse

-- The switch operates on a JS array *in place*: `filteredProjects.sort(...)`
-- and `filteredProjects.reverse()` mutate the array `filteredProjects` refers
-- to and hand back the same reference.  Arrays live in a reference-indexed
-- store so mutation and aliasing are expressible.
abbrev ArrStore := Nat → List Project

def storeUpdate (h : ArrStore) (ref : Nat) (v : List Project) : ArrStore :=
  fun ref2 => if ref2 = ref then v else h ref2

-- The sort stage of renderProjects acting on the array at `ref`: it yields
-- the store after the in-place mutation together with the reference the code
-- continues with (the same one; no new array is allocated).
def sortStage (lc : String → String → Ordering) (h : ArrStore) (ref : Nat) :
    SortMode → ArrStore × Nat
  | SortMode.default => (h, ref)
  | SortMode.az => (storeUpdate h ref (sortProjects lc SortMode.az (h ref)), ref)
  | SortMode.za => (storeUpdate h ref (sortProjects lc SortMode.za (h ref)), ref)
  | SortMode.newest => (storeUpdate h ref (sortProjects lc SortMode.newest (h ref)), ref)

-- A concrete, computable collator standing in for the environment's
-- `localeCompare` in witnesses: codepoint-wise lexicographic comparison.
def cmpChars : List Char → List Char → Ordering
  | [], [] => Ordering.eq
  | [], _ :: _ => Ordering.lt
  | _ :: _, [] => Ordering.gt
  | c :: cs, d :: ds =>
    if c < d then Ordering.lt
    else if d < c then Ordering.gt
    else cmpChars cs ds

def cmpLC (s t : String) : Ordering := cmpChars s.data t.data

-- ===================================================================
-- Paginator (src/js/app.js lines 355-359)
-- ===================================================================

-- `const itemsPerPage = 9;` (line 96).
def itemsPerPage : Nat := 9

-- From renderProjects lines 355-359, with the page size generalized to a
-- parameter as the spec's Paginator contract does:
--   totalPages = Math.ceil(totalItems / pageSize)
--   start = (currentPage - 1) * pageSize
--   paginatedItems = filteredProjects.slice(start, start + pageSize)
-- `Math.ceil (a / b)` on naturals is `(a + b - 1) / b`, and `slice` with a
-- non-negative start clamped to the array is `take pageSize ∘ drop start`.
def paginate (records : List Project) (pageSize pageNumber : Nat) :
    List Project × Nat :=
  let totalPages := (records.length + pageSize - 1) / pageSize
  let start := (pageNumber - 1) * pageSize
  ((records.drop start).take pageSize, totalPages)

-- ===================================================================
-- App state and event handlers (src/js/app.js lines 96-307)
-- ===================================================================

-- The module-level mutable state of app.js together with the DOM values the
-- handlers read and write: `currentPage` (line 98), `currentCategory`
-- (line 100), `currentSort` (line 102), `allProjectsData` (line 104),
-- `visibilityEngine` (line 112, null until constructed), the search input's
-- value, the sort dropdown's displayed value, the inline error state of the
-- projects container, and how many times `fetchProjects` ran.
structure AppState where
  allProjectsData : List Project
  engine : Option EngineState
  currentPage : Nat
  currentCategory : String
  currentSort : String
  searchValue : String
  sortSelectValue : String
  errorShown : Bool
  fetchAttempts : Nat
deriving DecidableEq

def initialAppState : AppState :=
  { allProjectsData := [], engine := none, currentPage := 1,
    currentCategory := "all", currentSort := "default", searchValue := "",
    sortSelectValue := "default", errorShown := false, fetchAttempts := 0 }

-- Search input handler (lines 196-204): update the engine's query if the
-- engine exists, then reset the page to 1.
def onSearchInput (s : AppState) (t : String) : AppState :=
  { s with searchValue := t,
           engine := s.engine.map (fun e => setSearchQuery e t),
           currentPage := 1 }

-- Sort dropdown handler (lines 207-213): record the new mode and reset the
-- page to 1.
def onSortChange (s : AppState) (v : String) : AppState :=
  { s with sortSelectValue := v, currentSort := v, currentPage := 1 }

-- Category filter button handler (lines 216-230): record the category, pass
-- it to the engine if the engine exists, and reset the page to 1.
def onFilterClick (s : AppState) (c : String) : AppState :=
  { s with currentCategory := c,
           engine := s.engine.map (fun e => setCategory e c),
           currentPage := 1 }

-- Clear-filters handler (lines 248-267): blank the search box, set the sort
-- dropdown's *displayed* value back to "default" (which does not fire a
-- change event, so `currentSort` keeps its old value), reset category and
-- page, and reset the engine if it exists.
def onClearClick (s : AppState) : AppState :=
  { s with searchValue := "", sortSelectValue := "default",
           currentCategory := "all", currentPage := 1,
           engine := s.engine.map reset }

-- Outcome of the initial `fetch("./projects.json")` + `response.json()`.
inductive FetchOutcome
  | ok (data : List Project)
  | err

-- fetchProjects (lines 151-179): on success store the data and construct the
-- engine; on failure (network error or invalid JSON) show the inline
-- "Unable to load projects" message and leave everything else alone.  Either
-- way exactly one fetch was issued and nothing ever retries it.
def fetchProjectsResult (s : AppState) : FetchOutcome → AppState
  | .ok data =>
    { s with allProjectsData := data, engine := some (mkEngine data),
             fetchAttempts := s.fetchAttempts + 1 }
  | .err =>
    { s with errorShown := true, fetchAttempts := s.fetchAttempts + 1 }

-- The user-input events wired up by setupEventListeners that touch filter
-- state.
inductive UIEvent
  | searchInput (t : String)
  | sortChange (v : String)
  | filterClick (c : String)
  | clearClick

def handleEvent (s : AppState) : UIEvent → AppState
  | .searchInput t => onSearchInput s t
  | .sortChange v => onSortChange s v
  | .filterClick c => onFilterClick s c
  | .clearClick => onClearClick s

def handleEvents (s : AppState) (evs : List UIEvent) : AppState :=
  evs.foldl handleEvent s

-- The app state right after a failed initial load.
def failedLoadState : AppState := fetchProjectsResult initialAppState FetchOutcome.err

-- ===================================================================
-- Startup initialization (src/js/app.js lines 630-650)
-- ===================================================================

-- `const totalComponents = 6;` (line 632).
def totalComponents : Nat := 6

-- The two kinds of startup happenings: a `componentLoaded` event (each of the
-- six components dispatches it at most once) and the single 3-second fallback
-- timer firing.
inductive StartEvent
  | componentLoaded
  | timerFired
deriving DecidableEq

-- `componentsLoaded` counter (line 631) and the number of `initializeApp`
-- invocations so far; each invocation issues one project fetch and one
-- contributor fetch (lines 296-307).
structure StartState where
  componentsLoaded : Nat
  initCount : Nat
deriving DecidableEq

-- The event listener (lines 634-642) increments the counter and initializes
-- when it reaches exactly `totalComponents`; the fallback timeout
-- (lines 645-650) initializes when the counter is still short of
-- `totalComponents`.
def startStep (s : StartState) : StartEvent → StartState
  | .componentLoaded =>
    let n := s.componentsLoaded + 1
    { componentsLoaded := n,
      initCount := if n = totalComponents then s.initCount + 1 else s.initCount }
  | .timerFired =>
    if s.componentsLoaded < totalComponents then
      { s with initCount := s.initCount + 1 }
    else s

def runStart (evs : List StartEvent) : StartState :=
  evs.foldl startStep { componentsLoaded := 0, initCount := 0 }

-- The interleaving in which the fallback timer fires while only five of the
-- six components have loaded, and the sixth loads afterwards.
def doubleInitTrace : List StartEvent :=
  [StartEvent.componentLoaded, StartEvent.componentLoaded, StartEvent.componentLoaded,
   StartEvent.componentLoaded, StartEvent.componentLoaded, StartEvent.timerFired,
   StartEvent.componentLoaded]

-- ===================================================================
-- Demo values used by concrete witnesses
-- ===================================================================

def pAlpha : Project := { title := "alpha", category := some "Web" }
def pBravo : Project := { title := "bravo", category := some "ai" }
def pCharlie : Project := { title := "charlie", category := none }

def demoProjects : List Project := [pAlpha, pBravo, pCharlie]

-- ===================================================================
-- Theorems
-- ===================================================================

theorem applyOps_records : ∀ (ops : List EngineOp) (e : EngineState),
    (applyOps e ops).records = e.records := by
  intro ops
  induction ops with
  | nil => intro e; rfl
  | cons op rest ih =>
    intro e
    have h1 : applyOps e (op :: rest) = applyOps (applyOp e op) rest := rfl
    rw [h1, ih]
    cases op <;> rfl

/-- C1: `getVisibleProjects()` returns exactly the records satisfying both the
category predicate and the search predicate, as a stable (order-preserving)
sublist of the store, and an unsatisfiable filter yields the empty sequence
rather than an error. -/
theorem C1_getVisibleProjects (r : List Project) (q c : String) :
    (getVisibleProjects { records := r, searchQuery := q, category := c }).Sublist r ∧
    (∀ p : Project,
      p ∈ getVisibleProjects { records := r, searchQuery := q, category := c } ↔
        p ∈ r ∧ (c = "all" ∨ categoryKey p = lowerString c) ∧
          (q = "" ∨ strContains (lowerString p.title) (lowerString q) = true)) ∧
    ((∀ p ∈ r, visiblePred q c p = false) →
      getVisibleProjects { records := r, searchQuery := q, category := c } = []) := by
  refine ⟨List.filter_sublist r, ?_, ?_⟩
  · intro p
    simp [getVisibleProjects, visiblePred, Bool.or_eq_true, Bool.and_eq_true,
      decide_eq_true_iff]
  · intro h
    apply List.filter_eq_nil_iff.mpr
    intro p hp
    simp [h p hp]

/-- C2: `paginate` returns `totalPages = ceil (count records / pageSize)`
(0 on an empty store), and the 1-indexed page slice is the range
`[(pageNumber-1)*pageSize, pageNumber*pageSize)` clamped to the records, with
out-of-range pages yielding `[]`; on 20 records with page size 9, page 1 has 9
elements and `totalPages = 3`, page 3 has 2 elements, and page 4 is empty. -/
theorem C2_paginate (r : List Project) (ps n : Nat) (hps : 0 < ps) :
    r.length ≤ (paginate r ps n).2 * ps ∧
    (∀ m : Nat, r.length ≤ m * ps → (paginate r ps n).2 ≤ m) ∧
    (r = [] → (paginate r ps n).2 = 0) ∧
    (paginate r ps n).1.length ≤ ps ∧
    (∀ i : Nat, i < ps → (paginate r ps n).1[i]? = r[(n - 1) * ps + i]?) ∧
    ((paginate r ps n).2 < n → (paginate r ps n).1 = []) ∧
    (∀ r20 : List Project, r20.length = 20 →
      (paginate r20 9 1).1.length = 9 ∧ (paginate r20 9 1).2 = 3 ∧
      (paginate r20 9 3).1.length = 2 ∧ (paginate r20 9 4).1 = []) := by
  have hps1 : 1 ≤ ps := hps
  have htp : (paginate r ps n).2 = (r.length + ps - 1) / ps := rfl
  have hsl : (paginate r ps n).1 = (r.drop ((n - 1) * ps)).take ps := rfl
  have hlow : r.length ≤ (paginate r ps n).2 * ps := by
    rw [htp]
    have h := (Nat.div_le_iff_le_mul_add_pred hps).mp
      (le_refl ((r.length + ps - 1) / ps))
    set q := (r.length + ps - 1) / ps with hq
    rw [Nat.add_sub_assoc hps1] at h
    have h2 := Nat.le_of_add_le_add_right h
    rw [Nat.mul_comm]
    exact h2
  have hmin : ∀ m : Nat, r.length ≤ m * ps → (paginate r ps n).2 ≤ m := by
    intro m hm
    rw [htp]
    apply (Nat.div_le_iff_le_mul_add_pred hps).mpr
    rw [Nat.add_sub_assoc hps1]
    refine Nat.add_le_add_right ?_ _
    rw [Nat.mul_comm] at hm
    exact hm
  refine ⟨hlow, hmin, ?_, ?_, ?_, ?_, ?_⟩
  · intro h
    subst h
    rw [htp]
    simp only [List.length_nil, Nat.zero_add]
    exact Nat.div_eq_of_lt (by omega)
  · rw [hsl]
    exact List.length_take_le ps _
  · intro i hi
    rw [hsl, List.getElem?_take_of_lt hi, List.getElem?_drop]
  · intro hlt
    rw [hsl]
    have h1 : (paginate r ps n).2 * ps ≤ (n - 1) * ps :=
      Nat.mul_le_mul_right ps (by omega)
    have h2 : r.length ≤ (n - 1) * ps := le_trans hlow h1
    rw [List.drop_eq_nil_of_le h2, List.take_nil]
  · intro r20 h20
    refine ⟨?_, ?_, ?_, ?_⟩
    · show ((r20.drop ((1 - 1) * 9)).take 9).length = 9
      simp [h20]
    · show (r20.length + 9 - 1) / 9 = 3
      rw [h20]
    · show ((r20.drop ((3 - 1) * 9)).take 9).length = 2
      simp [h20]
    · show (r20.drop ((4 - 1) * 9)).take 9 = []
      rw [List.drop_eq_nil_of_le (by omega : r20.length ≤ (4 - 1) * 9), List.take_nil]

theorem C2_witness :
    demoProjects.length ≤ (paginate demoProjects 2 1).2 * 2 :=
  (C2_paginate demoProjects 2 1 (by decide)).1

theorem C1_witness :
    getVisibleProjects { records := [pAlpha], searchQuery := "zz", category := "all" } = [] :=
  (C1_getVisibleProjects [pAlpha] "zz" "all").2.2 (by decide)

/-- C3: after any sequence of `setSearchQuery`/`setCategory` calls, `reset()`
restores the defaults without touching the record store, so a reset engine is
observationally a freshly constructed one over the same records. -/
theorem C3_reset (r : List Project) (ops : List EngineOp) (e : EngineState) :
    (reset e).records = e.records ∧
    getVisibleProjects (reset (applyOps (mkEngine r) ops)) =
      getVisibleProjects (mkEngine r) := by
  refine ⟨rfl, ?_⟩
  have hrec : (applyOps (mkEngine r) ops).records = r := applyOps_records ops (mkEngine r)
  have hE : reset (applyOps (mkEngine r) ops) = mkEngine r := by
    cases hA : applyOps (mkEngine r) ops with
    | mk rs sq ct =>
      rw [hA] at hrec
      simp only [reset, mkEngine]
      simp only [EngineState.mk.injEq]
      exact ⟨hrec, trivial, trivial⟩
  rw [hE]

-- ===================================================================
-- Sorting lemmas
-- ===================================================================

theorem leOfOrdering_false_iff (o : Ordering) :
    leOfOrdering o = false ↔ o = Ordering.gt := by
  cases o <;> simp [leOfOrdering]

theorem leOfOrdering_true_iff (o : Ordering) :
    leOfOrdering o = true ↔ o ≠ Ordering.gt := by
  cases o <;> simp [leOfOrdering]

theorem mem_orderedInsertB (le : α → α → Bool) (x : α) :
    ∀ (l : List α) (w : α), w ∈ orderedInsertB le x l ↔ w = x ∨ w ∈ l := by
  intro l
  induction l with
  | nil => intro w; simp [orderedInsertB]
  | cons y ys ih =>
    intro w
    cases hxy : le x y with
    | true => simp [orderedInsertB, hxy]
    | false =>
      simp only [orderedInsertB, hxy, List.mem_cons, ih]
      tauto

theorem perm_orderedInsertB (le : α → α → Bool) (x : α) :
    ∀ l : List α, (orderedInsertB le x l).Perm (x :: l) := by
  intro l
  induction l with
  | nil => simp [orderedInsertB]
  | cons y ys ih =>
    cases hxy : le x y with
    | true => simp [orderedInsertB, hxy]
    | false =>
      have h1 : orderedInsertB le x (y :: ys) = y :: orderedInsertB le x ys := by
        simp [orderedInsertB, hxy]
      rw [h1]
      exact (ih.cons y).trans (List.Perm.swap x y ys)

theorem perm_insertionSortB (le : α → α → Bool) :
    ∀ l : List α, (insertionSortB le l).Perm l := by
  intro l
  induction l with
  | nil => simp [insertionSortB]
  | cons x xs ih =>
    have h1 : insertionSortB le (x :: xs) = orderedInsertB le x (insertionSortB le xs) := rfl
    rw [h1]
    exact (perm_orderedInsertB le x _).trans (ih.cons x)

theorem mem_insertionSortB (le : α → α → Bool) (l : List α) (w : α) :
    w ∈ insertionSortB le l ↔ w ∈ l :=
  (perm_insertionSortB le l).mem_iff

theorem pairwise_orderedInsertB (le : α → α → Bool) (x : α) :
    ∀ l : List α,
      l.Pairwise (fun a b => le a b = true) →
      (∀ y ∈ l, le x y = true ∨ le y x = true) →
      (∀ y ∈ l, ∀ z ∈ l, le x y = true → le y z = true → le x z = true) →
      (orderedInsertB le x l).Pairwise (fun a b => le a b = true) := by
  intro l
  induction l with
  | nil =>
    intro _ _ _
    simp [orderedInsertB]
  | cons y ys ih =>
    intro hp htot htr
    rcases List.pairwise_cons.mp hp with ⟨hy, hys⟩
    cases hxy : le x y with
    | true =>
      have h1 : orderedInsertB le x (y :: ys) = x :: y :: ys := by
        simp [orderedInsertB, hxy]
      rw [h1]
      refine List.pairwise_cons.mpr ⟨?_, hp⟩
      intro z hz
      rcases List.mem_cons.mp hz with rfl | hz2
      · exact hxy
      · exact htr y (List.mem_cons_self y ys) z (List.mem_cons_of_mem y hz2) hxy (hy z hz2)
    | false =>
      have h1 : orderedInsertB le x (y :: ys) = y :: orderedInsertB le x ys := by
        simp [orderedInsertB, hxy]
      rw [h1]
      refine List.pairwise_cons.mpr ⟨?_, ?_⟩
      · intro z hz
        rcases (mem_orderedInsertB le x ys z).mp hz with rfl | hz2
        · rcases htot y (List.mem_cons_self y ys) with h | h
          · rw [hxy] at h
            exact Bool.noConfusion h
          · exact h
        · exact hy z hz2
      · exact ih hys
          (fun z hz => htot z (List.mem_cons_of_mem y hz))
          (fun z hz w hw hxz hzw =>
            htr z (List.mem_cons_of_mem y hz) w (List.mem_cons_of_mem y hw) hxz hzw)

theorem pairwise_insertionSortB (le : α → α → Bool) :
    ∀ l : List α,
      (∀ a ∈ l, ∀ b ∈ l, le a b = true ∨ le b a = true) →
      (∀ a ∈ l, ∀ b ∈ l, ∀ c ∈ l, le a b = true → le b c = true → le a c = true) →
      (insertionSortB le l).Pairwise (fun a b => le a b = true) := by
  intro l
  induction l with
  | nil => intro _ _; simp [insertionSortB]
  | cons x xs ih =>
    intro htot htr
    have h1 : insertionSortB le (x :: xs) = orderedInsertB le x (insertionSortB le xs) := rfl
    rw [h1]
    apply pairwise_orderedInsertB le x (insertionSortB le xs)
    · exact ih
        (fun a ha b hb => htot a (List.mem_cons_of_mem x ha) b (List.mem_cons_of_mem x hb))
        (fun a ha b hb c hc hab hbc =>
          htr a (List.mem_cons_of_mem x ha) b (List.mem_cons_of_mem x hb)
            c (List.mem_cons_of_mem x hc) hab hbc)
    · intro y hy
      have hy2 : y ∈ xs := (mem_insertionSortB le xs y).mp hy
      exact htot x (List.mem_cons_self x xs) y (List.mem_cons_of_mem x hy2)
    · intro y hy z hz hxy hyz
      have hy2 : y ∈ xs := (mem_insertionSortB le xs y).mp hy
      have hz2 : z ∈ xs := (mem_insertionSortB le xs z).mp hz
      exact htr x (List.mem_cons_self x xs) y (List.mem_cons_of_mem x hy2)
        z (List.mem_cons_of_mem x hz2) hxy hyz

theorem eq_of_perm_of_pairwise {R : α → α → Prop} :
    ∀ (l1 l2 : List α), l1.Perm l2 → l1.Pairwise R → l2.Pairwise R →
      (∀ a ∈ l1, ∀ b ∈ l1, R a b → R b a → a = b) → l1 = l2 := by
  intro l1
  induction l1 with
  | nil =>
    intro l2 hperm _ _ _
    exact (List.Perm.eq_nil hperm.symm).symm
  | cons a t1 ih =>
    intro l2 hperm hp1 hp2 hanti
    cases l2 with
    | nil => exact absurd (List.Perm.eq_nil hperm) (by simp)
    | cons b t2 =>
      rcases List.pairwise_cons.mp hp1 with ⟨ha1, hp1t⟩
      rcases List.pairwise_cons.mp hp2 with ⟨hb2, hp2t⟩
      have hab : a = b := by
        by_contra hne
        have ha2 : a ∈ b :: t2 := hperm.mem_iff.mp (List.mem_cons_self a t1)
        have hat2 : a ∈ t2 := by
          rcases List.mem_cons.mp ha2 with h | h
          · exact absurd h hne
          · exact h
        have hbl : b ∈ a :: t1 := hperm.symm.mem_iff.mp (List.mem_cons_self b t2)
        have hbt1 : b ∈ t1 := by
          rcases List.mem_cons.mp hbl with h | h
          · exact absurd h.symm hne
          · exact h
        exact hne (hanti a (List.mem_cons_self a t1) b (List.mem_cons_of_mem a hbt1)
          (ha1 b hbt1) (hb2 a hat2))
      subst hab
      have ht := ih t2 hperm.cons_inv hp1t hp2t
        (fun x hx y hy hxy hyx =>
          hanti x (List.mem_cons_of_mem a hx) y (List.mem_cons_of_mem a hy) hxy hyx)
      rw [ht]

theorem title_inj_of_pairwise_ne :
    ∀ l : List Project, l.Pairwise (fun a b => a.title ≠ b.title) →
      ∀ a ∈ l, ∀ b ∈ l, a.title = b.title → a = b := by
  intro l
  induction l with
  | nil =>
    intro _ a ha
    exact absurd ha (List.not_mem_nil a)
  | cons x xs ih =>
    intro hp a ha b hb hf
    rcases List.pairwise_cons.mp hp with ⟨hx, hxs⟩
    rcases List.mem_cons.mp ha with rfl | ha2
    · rcases List.mem_cons.mp hb with rfl | hb2
      · rfl
      · exact absurd hf (hx b hb2)
    · rcases List.mem_cons.mp hb with rfl | hb2
      · exact absurd hf.symm (hx a ha2)
      · exact ih hxs a ha2 b hb2 hf

/-- C4 counterexample: with mode `newest`, the sort stage of renderProjects
hands back the very array reference it was given (allocating no new sequence)
and reverses that array's contents in place, so the input sequence is mutated,
contradicting "never mutates the input sequence and always returns a new
sequence". -/
theorem C4_counterexample :
    (sortStage cmpLC (storeUpdate (fun _ => []) 0 [pAlpha, pBravo]) 0 SortMode.newest).2 = 0 ∧
    (sortStage cmpLC (storeUpdate (fun _ => []) 0 [pAlpha, pBravo]) 0 SortMode.newest).1 0 ≠
      storeUpdate (fun _ => []) 0 [pAlpha, pBravo] 0 := by
  constructor
  · rfl
  · decide

/-- C4 (amended): the sort stage operates in place — it always returns the
same array reference it was given, with that array's contents replaced by the
sorted contents; every other array in the store is untouched, and mode
`default` applies no comparator and changes nothing. -/
theorem C4_sort_in_place (lc : String → String → Ordering) (h : ArrStore)
    (ref : Nat) (mode : SortMode) :
    (sortStage lc h ref mode).2 = ref ∧
    (sortStage lc h ref mode).1 ref = sortProjects lc mode (h ref) ∧
    (∀ r2 : Nat, r2 ≠ ref → (sortStage lc h ref mode).1 r2 = h r2) ∧
    sortStage lc h ref SortMode.default = (h, ref) := by
  refine ⟨?_, ?_, ?_, rfl⟩
  · cases mode <;> rfl
  · cases mode with
    | default => rfl
    | az => simp [sortStage, storeUpdate]
    | za => simp [sortStage, storeUpdate]
    | newest => simp [sortStage, storeUpdate]
  · intro r2 hr2
    cases mode with
    | default => rfl
    | az => simp [sortStage, storeUpdate, hr2]
    | za => simp [sortStage, storeUpdate, hr2]
    | newest => simp [sortStage, storeUpdate, hr2]

theorem C4_witness :
    (sortStage cmpLC (fun _ => []) 0 SortMode.az).1 1 = [] :=
  (C4_sort_in_place cmpLC (fun _ => []) 0 SortMode.az).2.2.1 1 (by decide)

/-- C5: for a record sequence with pairwise distinct titles and a collator
that is consistent, transitive, and never ties distinct titles (the spec's
"no title ties"), sorting with `za` yields exactly the reverse of sorting
with `az`, and `newest` is the wholesale reversal of the input order. -/
theorem C5_sorting (lc : String → String → Ordering) (l : List Project)
    (hcons : ∀ a ∈ l, ∀ b ∈ l,
      (lc a.title b.title = Ordering.gt ↔ lc b.title a.title = Ordering.lt))
    (htr : ∀ a ∈ l, ∀ b ∈ l, ∀ c ∈ l,
      leAz lc a b = true → leAz lc b c = true → leAz lc a c = true)
    (hdist : l.Pairwise fun a b => a.title ≠ b.title)
    (hnt : ∀ a ∈ l, ∀ b ∈ l, a.title ≠ b.title → lc a.title b.title ≠ Ordering.eq) :
    sortProjects lc SortMode.za l = (sortProjects lc SortMode.az l).reverse ∧
    sortProjects lc SortMode.newest l = l.reverse := by
  refine ⟨?_, rfl⟩
  have htotA : ∀ a ∈ l, ∀ b ∈ l, leAz lc a b = true ∨ leAz lc b a = true := by
    intro a ha b hb
    by_contra hcon
    push_neg at hcon
    rcases hcon with ⟨h1, h2⟩
    have h1f : leAz lc a b = false := by
      cases hb1 : leAz lc a b
      · rfl
      · exact absurd hb1 h1
    have h2f : leAz lc b a = false := by
      cases hb2 : leAz lc b a
      · rfl
      · exact absurd hb2 h2
    have hg1 : lc a.title b.title = Ordering.gt := (leOfOrdering_false_iff _).mp h1f
    have hg2 : lc b.title a.title = Ordering.gt := (leOfOrdering_false_iff _).mp h2f
    have hlt := (hcons a ha b hb).mp hg1
    rw [hg2] at hlt
    exact Ordering.noConfusion hlt
  have htotZ : ∀ a ∈ l, ∀ b ∈ l, leZa lc a b = true ∨ leZa lc b a = true := by
    intro a ha b hb
    rcases htotA b hb a ha with h | h
    · exact Or.inl h
    · exact Or.inr h
  have htrZ : ∀ a ∈ l, ∀ b ∈ l, ∀ c ∈ l,
      leZa lc a b = true → leZa lc b c = true → leZa lc a c = true := by
    intro a ha b hb c hc h1 h2
    exact htr c hc b hb a ha h2 h1
  have hpA := pairwise_insertionSortB (leAz lc) l htotA htr
  have hpZ := pairwise_insertionSortB (leZa lc) l htotZ htrZ
  have hpArev : ((insertionSortB (leAz lc) l).reverse).Pairwise
      (fun a b => leZa lc a b = true) := by
    rw [List.pairwise_reverse]
    exact hpA
  have hperm : (insertionSortB (leZa lc) l).Perm
      ((insertionSortB (leAz lc) l).reverse) := by
    have p1 := perm_insertionSortB (leZa lc) l
    have p2 := perm_insertionSortB (leAz lc) l
    have p3 := List.reverse_perm (insertionSortB (leAz lc) l)
    exact p1.trans (p2.symm.trans p3.symm)
  have hanti : ∀ a ∈ insertionSortB (leZa lc) l, ∀ b ∈ insertionSortB (leZa lc) l,
      leZa lc a b = true → leZa lc b a = true → a = b := by
    intro a ha b hb h1 h2
    have ha2 : a ∈ l := (mem_insertionSortB (leZa lc) l a).mp ha
    have hb2 : b ∈ l := (mem_insertionSortB (leZa lc) l b).mp hb
    by_cases hteq : a.title = b.title
    · exact title_inj_of_pairwise_ne l hdist a ha2 b hb2 hteq
    · exfalso
      have hne1 : lc b.title a.title ≠ Ordering.gt := (leOfOrdering_true_iff _).mp h1
      have hne2 : lc a.title b.title ≠ Ordering.gt := (leOfOrdering_true_iff _).mp h2
      have hnee : lc a.title b.title ≠ Ordering.eq := hnt a ha2 b hb2 hteq
      have hlt : lc a.title b.title = Ordering.lt := by
        cases hcase : lc a.title b.title with
        | lt => rfl
        | eq => exact absurd hcase hnee
        | gt => exact absurd hcase hne2
      exact hne1 ((hcons b hb2 a ha2).mpr hlt)
  exact eq_of_perm_of_pairwise _ _ hperm hpZ hpArev hanti

theorem C5_witness :
    sortProjects cmpLC SortMode.za demoProjects =
      (sortProjects cmpLC SortMode.az demoProjects).reverse ∧
    sortProjects cmpLC SortMode.newest demoProjects = demoProjects.reverse :=
  C5_sorting cmpLC demoProjects (by decide) (by decide) (by decide) (by decide)

-- ===================================================================
-- Event-handler and startup theorems
-- ===================================================================

theorem handleEvent_preserves (s : AppState) (ev : UIEvent) :
    (handleEvent s ev).allProjectsData = s.allProjectsData ∧
    (handleEvent s ev).fetchAttempts = s.fetchAttempts ∧
    (handleEvent s ev).errorShown = s.errorShown := by
  cases ev <;> exact ⟨rfl, rfl, rfl⟩

theorem handleEvent_engine_none (s : AppState) (ev : UIEvent) (h : s.engine = none) :
    (handleEvent s ev).engine = none := by
  cases ev <;>
    simp [handleEvent, onSearchInput, onSortChange, onFilterClick, onClearClick, h]

theorem handleEvents_preserves : ∀ (evs : List UIEvent) (s : AppState),
    s.engine = none →
    (handleEvents s evs).engine = none ∧
    (handleEvents s evs).allProjectsData = s.allProjectsData ∧
    (handleEvents s evs).fetchAttempts = s.fetchAttempts ∧
    (handleEvents s evs).errorShown = s.errorShown := by
  intro evs
  induction evs with
  | nil => intro s h; exact ⟨h, rfl, rfl, rfl⟩
  | cons ev rest ih =>
    intro s h
    have h1 : handleEvents s (ev :: rest) = handleEvents (handleEvent s ev) rest := rfl
    rcases handleEvent_preserves s ev with ⟨hd, hf, he⟩
    rcases ih (handleEvent s ev) (handleEvent_engine_none s ev h) with ⟨i1, i2, i3, i4⟩
    rw [h1]
    exact ⟨i1, by rw [i2, hd], by rw [i3, hf], by rw [i4, he]⟩

/-- C6: each event that can change the filtered set's composition — a search
edit, a category filter click, or the clear-filters action — resets
`currentPage` to 1 before the next render. -/
theorem C6_page_reset (s : AppState) (t c : String) :
    (onSearchInput s t).currentPage = 1 ∧
    (onFilterClick s c).currentPage = 1 ∧
    (onClearClick s).currentPage = 1 :=
  ⟨rfl, rfl, rfl⟩

/-- C7: when the initial fetch fails or returns invalid JSON, the inline
"unable to load" message is shown, exactly one fetch was ever issued (no
retry), the visibility engine is never constructed, and under every later
sequence of filter events the engine stays absent and the data, fetch count
and error state are untouched — the filter operations are no-ops guarded by
the engine presence check. -/
theorem C7_load_failure (evs : List UIEvent) :
    failedLoadState.errorShown = true ∧
    failedLoadState.engine = none ∧
    failedLoadState.fetchAttempts = 1 ∧
    (handleEvents failedLoadState evs).engine = none ∧
    (handleEvents failedLoadState evs).allProjectsData = [] ∧
    (handleEvents failedLoadState evs).fetchAttempts = 1 ∧
    (handleEvents failedLoadState evs).errorShown = true := by
  rcases handleEvents_preserves evs failedLoadState rfl with ⟨h1, h2, h3, h4⟩
  refine ⟨rfl, rfl, rfl, h1, ?_, ?_, ?_⟩
  · rw [h2]; rfl
  · rw [h3]; rfl
  · rw [h4]; rfl

/-- C10: the clear-filters action blanks the search text, resets the category
to "all" and the page to 1, and sets the sort dropdown's displayed value back
to "default", yet leaves `currentSort` — the sort mode the next render
actually uses — unchanged from its previous value. -/
theorem C10_clear_frame (s : AppState) :
    (onClearClick s).searchValue = "" ∧
    (onClearClick s).currentCategory = "all" ∧
    (onClearClick s).currentPage = 1 ∧
    (onClearClick s).sortSelectValue = "default" ∧
    (onClearClick s).currentSort = s.currentSort :=
  ⟨rfl, rfl, rfl, rfl, rfl⟩

/-- C8 counterexample: a record whose category field is absent.  The
per-category counting key and the engine's key treat it as "unknown", but the
fallback category filter of renderProjects (line 336) normalizes it to the
empty string instead, so filtering for "unknown" there misses the record —
not *every* category comparison treats an absent category as "unknown". -/
theorem C8_counterexample :
    fallbackCategoryKey { title := "Demo" } = "" ∧
    fallbackCategoryFilter "unknown" [{ title := "Demo" }] = [] ∧
    List.filter (fun p => decide (categoryKey p = "unknown"))
      [({ title := "Demo" } : Project)] = [{ title := "Demo" }] := by
  decide

/-- C8 (amended): records with an absent or empty category are treated as
"unknown" by the per-category counting of updateCategoryCounts and by the
engine's category comparisons; the legacy fallback filter — used only while
the engine is absent — instead normalizes them to the empty string, so there
such records match no specific category token. -/
theorem C8_category_fallbacks (p : Project)
    (h : p.category = none ∨ p.category = some "") :
    countCategoryKey p = "unknown" ∧
    categoryKey p = "unknown" ∧
    fallbackCategoryKey p = "" := by
  rcases h with h | h <;>
    simp [countCategoryKey, categoryKey, fallbackCategoryKey, h]

theorem C8_witness :
    countCategoryKey pCharlie = "unknown" ∧
    categoryKey pCharlie = "unknown" ∧
    fallbackCategoryKey pCharlie = "" :=
  C8_category_fallbacks pCharlie (by decide)

/-- C9 counterexample: in the valid interleaving where the fallback timer
fires after only five of the six componentLoaded events and the sixth event
arrives later, `initializeApp` — and with it the project fetch and the
contributor fetch — runs twice in one page load, not exactly once. -/
theorem C9_counterexample :
    (doubleInitTrace.count StartEvent.timerFired = 1 ∧
      doubleInitTrace.count StartEvent.componentLoaded ≤ totalComponents) ∧
    (runStart doubleInitTrace).initCount = 2 := by
  decide

theorem startStep_comp_componentsLoaded (s : StartState) :
    (startStep s StartEvent.componentLoaded).componentsLoaded =
      s.componentsLoaded + 1 := rfl

theorem startStep_comp_initCount (s : StartState) :
    (startStep s StartEvent.componentLoaded).initCount =
      if s.componentsLoaded + 1 = totalComponents then s.initCount + 1
      else s.initCount := rfl

theorem startStep_timer_componentsLoaded (s : StartState) :
    (startStep s StartEvent.timerFired).componentsLoaded = s.componentsLoaded := by
  by_cases h : s.componentsLoaded < totalComponents
  · simp [startStep, h]
  · simp [startStep, h]

theorem startStep_timer_initCount (s : StartState) :
    (startStep s StartEvent.timerFired).initCount =
      s.initCount + (if s.componentsLoaded < totalComponents then 1 else 0) := by
  by_cases h : s.componentsLoaded < totalComponents
  · simp [startStep, h]
  · simp [startStep, h]

theorem runRep_componentsLoaded : ∀ (k : Nat) (s : StartState),
    (List.foldl startStep s
      (List.replicate k StartEvent.componentLoaded)).componentsLoaded =
      s.componentsLoaded + k := by
  intro k
  induction k with
  | zero => intro s; rfl
  | succ n ih =>
    intro s
    rw [List.replicate_succ, List.foldl_cons, ih, startStep_comp_componentsLoaded]
    omega

theorem runRep_initCount : ∀ (k : Nat) (s : StartState),
    (List.foldl startStep s (List.replicate k StartEvent.componentLoaded)).initCount =
      s.initCount + (if s.componentsLoaded < totalComponents ∧
        totalComponents ≤ s.componentsLoaded + k then 1 else 0) := by
  intro k
  induction k with
  | zero =>
    intro s
    rw [List.replicate_zero, List.foldl_nil]
    simp only [totalComponents]
    split_ifs with h
    · omega
    · omega
  | succ n ih =>
    intro s
    rw [List.replicate_succ, List.foldl_cons, ih, startStep_comp_initCount,
        startStep_comp_componentsLoaded]
    simp only [totalComponents]
    split_ifs <;> omega

/-- C9 (amended): with `a` componentLoaded events before the single fallback
timer firing and `b` after it (`a + b ≤ 6` since each of the six components
loads at most once), `initializeApp` runs exactly once — unless the timer
fires before the sixth componentLoaded event and all six eventually arrive
(`a < 6` and `a + b = 6`), in which case it runs exactly twice. -/
theorem C9_init_count (a b : Nat) (hab : a + b ≤ totalComponents) :
    (runStart (List.replicate a StartEvent.componentLoaded ++
        StartEvent.timerFired :: List.replicate b StartEvent.componentLoaded)).initCount =
      if a + b = totalComponents ∧ a < totalComponents then 2 else 1 := by
  have h0 : runStart (List.replicate a StartEvent.componentLoaded ++
      StartEvent.timerFired :: List.replicate b StartEvent.componentLoaded) =
      List.foldl startStep
        (startStep (List.foldl startStep { componentsLoaded := 0, initCount := 0 }
          (List.replicate a StartEvent.componentLoaded)) StartEvent.timerFired)
        (List.replicate b StartEvent.componentLoaded) := by
    rw [runStart, List.foldl_append, List.foldl_cons]
  rw [h0, runRep_initCount, startStep_timer_initCount, startStep_timer_componentsLoaded,
      runRep_initCount, runRep_componentsLoaded]
  have hc0 : ({ componentsLoaded := 0, initCount := 0 } : StartState).componentsLoaded = 0 := rfl
  have hi0 : ({ componentsLoaded := 0, initCount := 0 } : StartState).initCount = 0 := rfl
  rw [hc0, hi0]
  simp only [totalComponents] at hab ⊢
  split_ifs <;> omega

theorem C9_witness :
    (runStart (List.replicate 5 StartEvent.componentLoaded ++
        StartEvent.timerFired :: List.replicate 1 StartEvent.componentLoaded)).initCount =
      if 5 + 1 = totalComponents ∧ 5 < totalComponents then 2 else 1 :=
  C9_init_count 5 1 (by decide)
